import Mathlib

/-!
Verification development for the `vadeen_osm` crate: an in-memory
OpenStreetMap model together with an o5m (binary) and an OSM-XML codec.

The definitions below are a shallow embedding of the Rust sources:

* `src/osm_io/o5m/varint.rs` — the variable-length integer codec;
* `src/osm_io/o5m.rs`       — the string reference table and delta registers;
* `src/osm_io/o5m/writer.rs` and `src/osm_io/o5m/reader.rs` — the o5m codec;
* `src/element.rs`, `src/geo.rs`, `src/lib.rs` — the data model and the
  `Osm` / `OsmBuilder` operations;
* `src/osm_io/xml/reader.rs`, `src/osm_io/xml/writer.rs` — the XML codec
  (modelled at the level of parsed XML events; the `quick_xml` tokenizer is
  an external crate, not code of this repository);
* `src/osm_io/error.rs` — the error type and its rendering.

Machine integers are modelled as `Nat` / `Int`; the casts the Rust code
performs (`as i32`, `as u32`, `as u64`, `as i64`, and two's-complement
wrap-around of release-mode arithmetic) are written out explicitly with the
helpers right below.  Rust `String` values and byte buffers are modelled as
`List Nat` of byte values; `String::from_utf8_lossy` applied to bytes that
came out of a Rust `String` is the identity on those bytes, so the byte-list
model is exact on every path exercised below.

Loops whose exit condition is data dependent (`read_until_eof`,
`read_string_bytes`, the dataset loop of `O5mReader::read`) are written with
an explicit fuel argument; every iteration of each such loop consumes at
least one byte of the input stream, so fuel `stream length + 1`, which is
what every call site passes, can never be exhausted before the loop exits on
its own.
-/

set_option autoImplicit false

namespace VadeenOsm

/-- `v as u64` applied to an `i64` value (two's complement). -/
def toUInt64Cast (z : Int) : Nat := (z % (2 ^ 64)).toNat

/-- `v as i32` applied to an `i64` value (two's complement truncation). -/
def toInt32Cast (z : Int) : Int := (z + 2 ^ 31) % 2 ^ 32 - 2 ^ 31

/-- `v as u32` applied to a `u64` value (truncation). -/
def toUInt32Cast (n : Nat) : Nat := n % 2 ^ 32

/-- Two's-complement wrap-around of an integer into the `i64` range, the
result of release-mode `i64` arithmetic in Rust. -/
def wrap64 (z : Int) : Int := (z + 2 ^ 63) % 2 ^ 64 - 2 ^ 63

/-- `u64` subtraction (`a - b` wrapping modulo `2 ^ 64`), for operands below
`2 ^ 64`. -/
def u64sub (a b : Nat) : Nat := (a + 2 ^ 64 - b % 2 ^ 64) % 2 ^ 64

/-! ## VarInt codec (`src/osm_io/o5m/varint.rs`)

`impl From<u64> for VarInt` is a loop emitting 7-bit groups, least
significant first, each with the continuation bit `0x80`, then the final
nonzero group without it; the value `0` produces an empty byte vector (both
the `while` guard and the final `if value > 0` fail).  The loop runs at most
ten times for a `u64`; it is written here with an explicit group counter so
that it is structurally recursive, and `uvarintEncode` starts the counter at
10, which is exact for every value below `2 ^ 70`. -/

def uvarintEncodeAux : Nat → Nat → List Nat
  | 0, _ => []
  | fuel + 1, v =>
    if v > 0x7F then (v % 128 + 128) :: uvarintEncodeAux fuel (v / 128)
    else if v > 0 then [v] else []

/-- `VarInt::from(value: u64)`: the encoded byte vector. -/
def uvarintEncode (v : Nat) : List Nat := uvarintEncodeAux 10 v

/-- `VarInt::into_u64`: fold 7-bit groups until a byte without the
continuation bit; an empty vector yields 0 (the Rust loop body never runs). -/
def uvarintDecode : List Nat → Nat
  | [] => 0
  | b :: rest => b % 128 + if 128 ≤ b then 128 * uvarintDecode rest else 0

/-- `VarInt::from(value: i64)`: the first byte carries the sign in bit 0 and
six payload bits; negative values store `-value - 1`.  For `i64::MIN` the
Rust expression `-value - 1` wraps (release mode) to `i64::MAX`, which is
the same number this definition produces. -/
def varintEncode (x : Int) : List Nat :=
  let s : Nat := if x < 0 then 1 else 0
  let v : Nat := (if x < 0 then -x - 1 else x).toNat
  let least : Nat := v % 64 * 2 + s
  if v > 0x3F then (least + 128) :: uvarintEncode (v / 64)
  else [least]

/-- `VarInt::into_i64`.  The Rust function unwraps the first byte and would
panic on an empty vector; encoded signed varints always hold at least one
byte (`From<i64>` always pushes one, and `read_varint` reads at least one),
so the `none` branch is unreachable in every use below. -/
def varintDecode? : List Nat → Option Int
  | [] => none
  | b :: rest =>
    let negative := b % 2 = 1
    let v0 : Nat := b % 128 / 2
    let v : Nat := if 128 ≤ b then v0 + 64 * uvarintDecode rest else v0
    some (if negative then -(v : Int) - 1 else (v : Int))

/-! ## String reference table (`src/osm_io/o5m.rs`)

`StringReferenceTable` wraps a `VecDeque<Vec<u8>>`; the front of the deque is
the head of the list here. -/

def MAX_STRING_TABLE_SIZE : Nat := 15000

def MAX_STRING_REFERENCE_LENGTH : Nat := 250

abbrev StrTable := List (List Nat)

/-- `StringReferenceTable::push`: strings longer than 250 bytes are not
admitted; at capacity the oldest (back) entry is popped first. -/
def strTablePush (t : StrTable) (bytes : List Nat) : StrTable :=
  if bytes.length > MAX_STRING_REFERENCE_LENGTH then t
  else if t.length = MAX_STRING_TABLE_SIZE then bytes :: t.dropLast
  else bytes :: t

/-- `StringReferenceTable::get`: `idx` starts at 1; the Rust code indexes the
deque at `(idx - 1) as usize`, so `idx = 0` wraps to `2 ^ 64 - 1` and misses
any real table. -/
def strTableGet (t : StrTable) (idx : Nat) : Option (List Nat) :=
  t.get? ((idx + (2 ^ 64 - 1)) % 2 ^ 64)

/-- `StringReferenceTable::reference`: over-long strings are returned as
literals without touching the table; a string already present yields its
1-based position as an unsigned varint; otherwise the string is pushed and
returned as a literal. -/
def strTableReference (t : StrTable) (bytes : List Nat) : List Nat × StrTable :=
  if bytes.length > MAX_STRING_REFERENCE_LENGTH then (bytes, t)
  else
    match t.findIdx? (fun b => b = bytes) with
    | some pos => (uvarintEncode (pos + 1), t)
    | none => (bytes, strTablePush t bytes)

/-- The operations a `StringReferenceTable` is driven through (`clear` is the
reset; `get` does not change the table). -/
inductive StrOp
  | push (bytes : List Nat)
  | reference (bytes : List Nat)
  | clear

def strOpApply (t : StrTable) : StrOp → StrTable
  | .push bytes => strTablePush t bytes
  | .reference bytes => (strTableReference t bytes).2
  | .clear => []

/-- The table resulting from a sequence of operations on a fresh table. -/
def runStrOps (ops : List StrOp) : StrTable := ops.foldl strOpApply []

/-! ## Delta register bank (`src/osm_io/o5m.rs`, `DeltaState`) -/

inductive Delta
  | id | time | lat | lon | changeSet | wayRef | relNodeRef | relWayRef | relRelRef
  deriving DecidableEq

structure DeltaState where
  id : Int
  time : Int
  lat : Int
  lon : Int
  change_set : Int
  way_ref : Int
  rel_node_ref : Int
  rel_way_ref : Int
  rel_rel_ref : Int
  deriving DecidableEq

def DeltaState.new : DeltaState := ⟨0, 0, 0, 0, 0, 0, 0, 0, 0⟩

def DeltaState.getReg (st : DeltaState) : Delta → Int
  | .id => st.id
  | .time => st.time
  | .lat => st.lat
  | .lon => st.lon
  | .changeSet => st.change_set
  | .wayRef => st.way_ref
  | .relNodeRef => st.rel_node_ref
  | .relWayRef => st.rel_way_ref
  | .relRelRef => st.rel_rel_ref

def DeltaState.setReg (st : DeltaState) (d : Delta) (v : Int) : DeltaState :=
  match d with
  | .id => { st with id := v }
  | .time => { st with time := v }
  | .lat => { st with lat := v }
  | .lon => { st with lon := v }
  | .changeSet => { st with change_set := v }
  | .wayRef => { st with way_ref := v }
  | .relNodeRef => { st with rel_node_ref := v }
  | .relWayRef => { st with rel_way_ref := v }
  | .relRelRef => { st with rel_rel_ref := v }

/-- `DeltaValue::value` through `DeltaState::decode`: add the delta to the
state (release-mode `i64` addition) and output the new state. -/
def DeltaState.decode (st : DeltaState) (d : Delta) (delta : Int) : Int × DeltaState :=
  let v := wrap64 (st.getReg d + delta)
  (v, st.setReg d v)

/-! ## Data model (`src/geo.rs`, `src/element.rs`)

`Meta` and `AuthorInformation` are modelled with the fields the codec
modules construct and consume (`reader.rs`, `writer.rs` and both codecs'
tests build `Meta { version: Some(…), author: Some(AuthorInformation {
created: …, change_set, uid, user }) }`): `version` is an optional `u32`,
and an author record carries the `created` timestamp. -/

structure Coordinate where
  lat : Int
  lon : Int
  deriving DecidableEq

structure Boundary where
  min : Coordinate
  max : Coordinate
  freeze : Bool
  deriving DecidableEq

structure Tag where
  key : List Nat
  value : List Nat
  deriving DecidableEq

structure AuthorInformation where
  created : Int
  change_set : Nat
  uid : Nat
  user : List Nat
  deriving DecidableEq

structure Meta where
  tags : List Tag
  version : Option Nat
  author : Option AuthorInformation
  deriving DecidableEq

/-- `Meta::default()`: no tags, no version, no author (the writer tests
serialise a default meta as the single byte `0x00`). -/
def Meta.defaultMeta : Meta := ⟨[], none, none⟩

structure Node where
  id : Int
  coordinate : Coordinate
  meta : Meta
  deriving DecidableEq

structure Way where
  id : Int
  refs : List Int
  meta : Meta
  deriving DecidableEq

inductive RelationMember
  | node (id : Int) (role : List Nat)
  | way (id : Int) (role : List Nat)
  | relation (id : Int) (role : List Nat)
  deriving DecidableEq

def RelationMember.role : RelationMember → List Nat
  | .node _ r => r
  | .way _ r => r
  | .relation _ r => r

structure Relation where
  id : Int
  members : List RelationMember
  meta : Meta
  deriving DecidableEq

/-- `Boundary::inverted()`: min = (90°, 180°), max = (−90°, −180°) in
fixed-point units, not frozen. -/
def Boundary.inverted : Boundary :=
  { min := ⟨900000000, 1800000000⟩, max := ⟨-900000000, -1800000000⟩, freeze := false }

/-- `Boundary::expand`: a frozen boundary is left alone; otherwise each of
the four corner components is moved outward if the coordinate lies past it. -/
def Boundary.expand (b : Boundary) (c : Coordinate) : Boundary :=
  if b.freeze then b
  else
    { b with
      max := ⟨if c.lat > b.max.lat then c.lat else b.max.lat,
              if c.lon > b.max.lon then c.lon else b.max.lon⟩,
      min := ⟨if c.lat < b.min.lat then c.lat else b.min.lat,
              if c.lon < b.min.lon then c.lon else b.min.lon⟩ }

/-! ## `Osm` container and `OsmBuilder` (`src/lib.rs`) -/

structure Osm where
  boundary : Option Boundary
  nodes : List Node
  ways : List Way
  relations : List Relation
  max_id : Int
  node_id_index : List (Coordinate × Int)
  deriving DecidableEq

/-- `Osm::default()`: an inverted (growable) boundary, empty contents. -/
def Osm.defaultOsm : Osm := ⟨some Boundary.inverted, [], [], [], 0, []⟩

/-- `HashMap::insert` on the coordinate index; lookups read the most recent
binding, so prepending models last-writer-wins. -/
def indexInsert (idx : List (Coordinate × Int)) (c : Coordinate) (i : Int) :
    List (Coordinate × Int) :=
  (c, i) :: idx

/-- `HashMap::get` on the coordinate index. -/
def indexFind (idx : List (Coordinate × Int)) (c : Coordinate) : Option Int :=
  (idx.find? (fun p => p.1 = c)).map (·.2)

/-- `Osm::add_node`: expand the boundary (if any), raise `max_id`, index the
coordinate, append the node. -/
def Osm.addNode (osm : Osm) (node : Node) : Osm :=
  { osm with
    boundary := osm.boundary.map (·.expand node.coordinate),
    max_id := max osm.max_id node.id,
    node_id_index := indexInsert osm.node_id_index node.coordinate node.id,
    nodes := osm.nodes ++ [node] }

/-- `Osm::add_way`: append only. -/
def Osm.addWay (osm : Osm) (way : Way) : Osm :=
  { osm with ways := osm.ways ++ [way] }

/-- `Osm::add_relation`: append only. -/
def Osm.addRelation (osm : Osm) (relation : Relation) : Osm :=
  { osm with relations := osm.relations ++ [relation] }

/-- `Osm::find_node_id`. -/
def Osm.findNodeId (osm : Osm) (coordinate : Coordinate) : Option Int :=
  indexFind osm.node_id_index coordinate

/-- The public mutators of `Osm`. -/
inductive OsmOp
  | addNode (n : Node)
  | addWay (w : Way)
  | addRelation (r : Relation)

def osmOpApply (osm : Osm) : OsmOp → Osm
  | .addNode n => osm.addNode n
  | .addWay w => osm.addWay w
  | .addRelation r => osm.addRelation r

/-- The container resulting from a sequence of public operations on
`Osm::default()`. -/
def runOsmOps (ops : List OsmOp) : Osm := ops.foldl osmOpApply Osm.defaultOsm

/-- `OsmBuilder::add_node` (the builder holds an `Osm`; the function returns
the id used for the coordinate): an existing coordinate short-circuits with
the indexed id, otherwise a fresh node with id `max_id + 1` and a meta made
of the given tags is added. -/
def builderAddNode (osm : Osm) (coordinate : Coordinate) (tags : List Tag) : Int × Osm :=
  match osm.findNodeId coordinate with
  | some id => (id, osm)
  | none =>
    let id := osm.max_id + 1
    let meta : Meta := { tags := tags, version := none, author := none }
    (id, osm.addNode { id := id, coordinate := coordinate, meta := meta })

/-- `OsmBuilder::add_nodes`: every vertex of a polyline or polygon ring goes
through `add_node` with an empty tag list. -/
def builderAddNodes (osm : Osm) (coordinates : List Coordinate) : List Int × Osm :=
  match coordinates with
  | [] => ([], osm)
  | c :: rest =>
    let (i, osm₁) := builderAddNode osm c []
    let (is, osm₂) := builderAddNodes osm₁ rest
    (i :: is, osm₂)

/-! ## Errors (`src/osm_io/error.rs`)

The decoder over an in-memory byte slice can produce parse errors and
end-of-input IO errors; `Display for Error` prints the message when one is
set and otherwise a fixed text per kind.  (`src/osm_io/o5m.rs` names the
parse kind `Parse` where `error.rs` declares it as `ParseError`; both stand
for the same parse-error kind here.) -/

inductive ErrKind
  | invalidFileFormat
  | parseError
  | ioUnexpectedEof
  deriving DecidableEq

structure Err where
  kind : ErrKind
  message : Option String
  deriving DecidableEq

def eofErr : Err := ⟨.ioUnexpectedEof, none⟩

instance {ε α : Type} [DecidableEq ε] [DecidableEq α] : DecidableEq (Except ε α)
  | .error e₁, .error e₂ =>
    if h : e₁ = e₂ then .isTrue (by rw [h]) else .isFalse (fun c => h (Except.error.inj c))
  | .error _, .ok _ => .isFalse (fun c => Except.noConfusion c)
  | .ok _, .error _ => .isFalse (fun c => Except.noConfusion c)
  | .ok a₁, .ok a₂ =>
    if h : a₁ = a₂ then .isTrue (by rw [h]) else .isFalse (fun c => h (Except.ok.inj c))

/-- `impl Display for Error`. -/
def renderErr (e : Err) : String :=
  match e.message with
  | some m => m
  | none =>
    match e.kind with
    | .invalidFileFormat => "File format not recognized."
    | .parseError => "Unknown parse error occurred."
    | .ioUnexpectedEof => "Unexpected end of file."

/-! ## o5m encoder (`src/osm_io/o5m/writer.rs`)

`O5mEncoder` holds the string table and the delta bank; byte output is
returned alongside the updated state.  `O5mWriter::write` resets the encoder
before the header and before each of the three entity groups, so each group
is encoded from a fresh `EncState`. -/

def O5M_EOF : Nat := 0xFE
def O5M_RESET : Nat := 0xFF
def O5M_NODE : Nat := 0x10
def O5M_WAY : Nat := 0x11
def O5M_RELATION : Nat := 0x12
def O5M_BOUNDING_BOX : Nat := 0xDB

structure EncState where
  table : StrTable
  delta : DeltaState
  deriving DecidableEq

def EncState.new : EncState := ⟨[], DeltaState.new⟩

/-- `type-code, uvarint(length), payload` framing of one dataset. -/
def frameDataset (code : Nat) (payload : List Nat) : List Nat :=
  code :: (uvarintEncode payload.length ++ payload)

/-- `O5mWriter::write_bounding_box`: four signed varints (min lon, min lat,
max lon, max lat), framed; no delta coding, no string table. -/
def writeBoundingBox (boundary : Boundary) : List Nat :=
  let bytes := varintEncode boundary.min.lon ++ varintEncode boundary.min.lat ++
    varintEncode boundary.max.lon ++ varintEncode boundary.max.lat
  frameDataset O5M_BOUNDING_BOX bytes

structure DecState where
  stream : List Nat
  lim : Nat
  rem : Nat
  pos : Nat
  table : StrTable
  delta : DeltaState
  deriving DecidableEq

def DecState.new (bytes : List Nat) : DecState := ⟨bytes, 0, 0, 0, [], DeltaState.new⟩

/-- `O5mDecoder::position`. -/
def DecState.position (st : DecState) : Nat := st.pos + (st.lim - st.rem)

/-- `O5mDecoder::set_limit`. -/
def setLimit (st : DecState) (l : Nat) : DecState :=
  { st with pos := st.pos + (st.lim - st.rem), lim := l, rem := l }

abbrev DecRes (α : Type) := DecState × Except Err α

/-- `O5mDecoder::read_u8` (a `read_exact` of one byte through the `Take`). -/
def readU8 (st : DecState) : DecRes Nat :=
  if st.rem = 0 then (st, .error eofErr)
  else
    match st.stream with
    | [] => (st, .error eofErr)
    | b :: rest => ({ st with stream := rest, rem := st.rem - 1 }, .ok b)

/-- `ReadVarInt::read_varint`: up to nine bytes; reaching the tenth
iteration is the overflow parse error. -/
def readVarintAux (st : DecState) : Nat → DecRes (List Nat)
  | 0 => (st, .error ⟨.parseError, some "Varint overflow, read 9 bytes."⟩)
  | n + 1 =>
    match readU8 st with
    | (st₁, .error e) => (st₁, .error e)
    | (st₁, .ok b) =>
      if b < 128 then (st₁, .ok [b])
      else
        match readVarintAux st₁ n with
        | (st₂, .ok bs) => (st₂, .ok (b :: bs))
        | (st₂, .error e) => (st₂, .error e)

def readVarintB (st : DecState) : DecRes (List Nat) := readVarintAux st 9

/-- `O5mDecoder::read_uvarint`. -/
def readU64 (st : DecState) : DecRes Nat :=
  match readVarintB st with
  | (st₁, .ok bs) => (st₁, .ok (uvarintDecode bs))
  | (st₁, .error e) => (st₁, .error e)

/-- `VarInt::into_i64` on bytes `read_varint` produced (always nonempty, so
the `none` branch of `varintDecode?` cannot occur). -/
def varintDecodeTot (l : List Nat) : Int := (varintDecode? l).getD 0

/-- `O5mDecoder::read_varint` (the `i64` wrapper). -/
def readI64 (st : DecState) : DecRes Int :=
  match readVarintB st with
  | (st₁, .ok bs) => (st₁, .ok (varintDecodeTot bs))
  | (st₁, .error e) => (st₁, .error e)

/-- `O5mDecoder::read_delta`. -/
def readDelta (st : DecState) (d : Delta) : DecRes Int :=
  match readI64 st with
  | (st₁, .ok v) =>
    let (val, delta₁) := st₁.delta.decode d v
    ({ st₁ with delta := delta₁ }, .ok val)
  | (st₁, .error e) => (st₁, .error e)

/-- `O5mDecoder::read_delta_coordinate`: lon then lat, each cast `as i32`. -/
def readDeltaCoordinate (st : DecState) : DecRes Coordinate :=
  match readDelta st .lon with
  | (st₁, .ok lon) =>
    match readDelta st₁ .lat with
    | (st₂, .ok lat) => (st₂, .ok ⟨toInt32Cast lat, toInt32Cast lon⟩)
    | (st₂, .error e) => (st₂, .error e)
  | (st₁, .error e) => (st₁, .error e)

/-- `O5mDecoder::read_limit`: read the payload length under a 9-byte limit,
then set the limit to it. -/
def readLimit (st : DecState) : DecRes Unit :=
  match readU64 (setLimit st 9) with
  | (st₁, .ok len) => (setLimit st₁ len, .ok ())
  | (st₁, .error e) => (st₁, .error e)

/-- `StringReferenceTable::get` with its dangling-reference parse error. -/
def strTableGetE (t : StrTable) (idx : Nat) : Except Err (List Nat) :=
  match strTableGet t idx with
  | some v => .ok v
  | none => .error ⟨.parseError, some ("String reference '" ++ toString idx ++
      "' not found in table with size '" ++ toString t.length ++ "'.")⟩

/-- `O5mDecoder::read_string_bytes`: bytes until the `parts`-th NUL; the
final NUL is not kept, interior ones are; the result is pushed onto the
string table.  The fuel argument only bounds the loop (see the module
comment); every call passes more fuel than there are stream bytes. -/
def readStringBytesAux (parts : Nat) : Nat → DecState → Nat → List Nat → DecRes (List Nat)
  | 0, st, _, _ => (st, .error eofErr)
  | fuel + 1, st, count, acc =>
    match readU8 st with
    | (st₁, .error e) => (st₁, .error e)
    | (st₁, .ok b) =>
      if b = 0 then
        if count + 1 = parts then
          ({ st₁ with table := strTablePush st₁.table acc }, .ok acc)
        else readStringBytesAux parts fuel st₁ (count + 1) (acc ++ [0])
      else readStringBytesAux parts fuel st₁ count (acc ++ [b])

def readStringBytes (st : DecState) (parts : Nat) : DecRes (List Nat) :=
  readStringBytesAux parts (st.stream.length + 1) st 0 []

/-- `O5mDecoder::split_string_bytes`: split at the first NUL.  The Rust
function unwraps the search and panics when no NUL is present; none of the
uses below reaches that case. -/
def splitStringBytes (bytes : List Nat) : List Nat × List Nat :=
  match bytes.findIdx? (fun b => b = 0) with
  | some div => (bytes.take div, bytes.drop (div + 1))
  | none => (bytes, [])

/-- `O5mDecoder::bytes_to_string_pair`. -/
def bytesToStringPair (bytes : List Nat) : List Nat × List Nat :=
  splitStringBytes bytes

/-- `O5mDecoder::bytes_to_user`: uid varint bytes before the NUL, username
after it. -/
def bytesToUser (bytes : List Nat) : Nat × List Nat :=
  let (uidBytes, userBytes) := splitStringBytes bytes
  (uvarintDecode uidBytes, userBytes)

/-- `O5mDecoder::read_string_pair`: a nonzero varint is a table reference
(not re-inserted), zero prefixes a two-part literal. -/
def readStringPair (st : DecState) : DecRes (List Nat × List Nat) :=
  match readU64 st with
  | (st₁, .error e) => (st₁, .error e)
  | (st₁, .ok reference) =>
    if reference ≠ 0 then
      match strTableGetE st₁.table reference with
      | .ok bytes => (st₁, .ok (bytesToStringPair bytes))
      | .error e => (st₁, .error e)
    else
      match readStringBytes st₁ 2 with
      | (st₂, .ok bytes) => (st₂, .ok (bytesToStringPair bytes))
      | (st₂, .error e) => (st₂, .error e)

/-- `O5mDecoder::read_user`. -/
def readUser (st : DecState) : DecRes (Nat × List Nat) :=
  match readU64 st with
  | (st₁, .error e) => (st₁, .error e)
  | (st₁, .ok reference) =>
    if reference ≠ 0 then
      match strTableGetE st₁.table reference with
      | .ok bytes => (st₁, .ok (bytesToUser bytes))
      | .error e => (st₁, .error e)
    else
      match readStringBytes st₁ 2 with
      | (st₂, .ok bytes) => (st₂, .ok (bytesToUser bytes))
      | (st₂, .error e) => (st₂, .error e)

/-- `O5mDecoder::read_string` (single-part strings). -/
def readString (st : DecState) : DecRes (List Nat) :=
  match readU64 st with
  | (st₁, .error e) => (st₁, .error e)
  | (st₁, .ok reference) =>
    if reference = 0 then
      match readStringBytes st₁ 1 with
      | (st₂, .ok bytes) => (st₂, .ok bytes)
      | (st₂, .error e) => (st₂, .error e)
    else
      match strTableGetE st₁.table reference with
      | .ok bytes => (st₁, .ok bytes)
      | .error e => (st₁, .error e)

/-- `O5mDecoder::read_author_info`: a decoded time of zero means no author;
otherwise change-set delta (cast `as u64`) and the user record. -/
def readAuthorInfo (st : DecState) : DecRes (Option AuthorInformation) :=
  match readDelta st .time with
  | (st₁, .error e) => (st₁, .error e)
  | (st₁, .ok created) =>
    if created = 0 then (st₁, .ok none)
    else
      match readDelta st₁ .changeSet with
      | (st₂, .error e) => (st₂, .error e)
      | (st₂, .ok changeSet) =>
        match readUser st₂ with
        | (st₃, .error e) => (st₃, .error e)
        | (st₃, .ok (uid, user)) =>
          (st₃, .ok (some ⟨created, toUInt64Cast changeSet, uid, user⟩))

/-- `O5mReader::read_meta`: the version uvarint is cast `as u32` and zero
means no version and no author. -/
def readMeta (st : DecState) : DecRes Meta :=
  match readU64 st with
  | (st₁, .error e) => (st₁, .error e)
  | (st₁, .ok v) =>
    let version := toUInt32Cast v
    if version = 0 then (st₁, .ok ⟨[], none, none⟩)
    else
      match readAuthorInfo st₁ with
      | (st₂, .ok author) => (st₂, .ok ⟨[], some version, author⟩)
      | (st₂, .error e) => (st₂, .error e)

/-- Whether `read_until_eof` swallows the error (an IO error of kind
`UnexpectedEof`). -/
def isEofBreak (e : Err) : Bool := e.kind = .ioUnexpectedEof

/-- The `read_until_eof` loop of `read_tags`. -/
def readTagsAux : Nat → DecState → List Tag → DecRes (List Tag)
  | 0, st, _ => (st, .error eofErr)
  | fuel + 1, st, acc =>
    match readStringPair st with
    | (st₁, .ok (k, v)) => readTagsAux fuel st₁ (acc ++ [⟨k, v⟩])
    | (st₁, .error e) => if isEofBreak e then (st₁, .ok acc) else (st₁, .error e)

/-- `O5mDecoder::read_tags`. -/
def readTags (st : DecState) : DecRes (List Tag) :=
  readTagsAux (st.stream.length + 1) st []

/-- The `read_until_eof` loop of `read_way_references`. -/
def readWayRefsAux : Nat → DecState → List Int → DecRes (List Int)
  | 0, st, _ => (st, .error eofErr)
  | fuel + 1, st, acc =>
    match readDelta st .wayRef with
    | (st₁, .ok r) => readWayRefsAux fuel st₁ (acc ++ [r])
    | (st₁, .error e) => if isEofBreak e then (st₁, .ok acc) else (st₁, .error e)

/-- `O5mDecoder::read_way_references`: run the loop under a sub-limit of
`size` bytes, then restore the remaining outer budget (`u64` arithmetic). -/
def readWayReferences (st : DecState) (size : Nat) : DecRes (List Int) :=
  let limit := st.rem
  let st₁ := setLimit st size
  match readWayRefsAux (st₁.stream.length + 1) st₁ [] with
  | (st₂, .ok refs) => (setLimit st₂ (u64sub limit size), .ok refs)
  | (st₂, .error e) => (st₂, .error e)

/-- `str::is_char_boundary(1)` on the UTF-8 bytes of the decoded member
string: true when the string is exactly one byte, or has a second byte that
is not a UTF-8 continuation byte. -/
def isCharBoundary1 (s : List Nat) : Bool :=
  s.length == 1 || (decide (1 < s.length) && decide ((s.getD 1 0) / 64 ≠ 2))

/-- `O5mDecoder::read_relation_member`: plain id varint, the member string,
the shape check, then the variant dispatch on the leading byte with the
matching delta register. -/
def readRelationMember (st : DecState) : DecRes RelationMember :=
  match readI64 st with
  | (st₁, .error e) => (st₁, .error e)
  | (st₁, .ok memId) =>
    match readString st₁ with
    | (st₂, .error e) => (st₂, .error e)
    | (st₂, .ok s) =>
      if ¬ isCharBoundary1 s ∨ s.length < 2 then
        (st₂, .error ⟨.parseError, some "Corrupt relation member reference data."⟩)
      else
        match s with
        | [] => (st₂, .error ⟨.parseError, some "Corrupt relation member reference data."⟩)
        | t :: role =>
          if t = 48 then
            let (v, delta₁) := st₂.delta.decode .relNodeRef memId
            ({ st₂ with delta := delta₁ }, .ok (.node v role))
          else if t = 49 then
            let (v, delta₁) := st₂.delta.decode .relWayRef memId
            ({ st₂ with delta := delta₁ }, .ok (.way v role))
          else if t = 50 then
            let (v, delta₁) := st₂.delta.decode .relRelRef memId
            ({ st₂ with delta := delta₁ }, .ok (.relation v role))
          else
            (st₂, .error ⟨.parseError, some ("Invalid relation member type '" ++
              String.singleton (Char.ofNat t) ++ "'.")⟩)

/-- The `read_until_eof` loop of `read_relation_members`. -/
def readRelMembersAux : Nat → DecState → List RelationMember → DecRes (List RelationMember)
  | 0, st, _ => (st, .error eofErr)
  | fuel + 1, st, acc =>
    match readRelationMember st with
    | (st₁, .ok m) => readRelMembersAux fuel st₁ (acc ++ [m])
    | (st₁, .error e) => if isEofBreak e then (st₁, .ok acc) else (st₁, .error e)

/-- `O5mDecoder::read_relation_members`. -/
def readRelationMembers (st : DecState) (size : Nat) : DecRes (List RelationMember) :=
  let limit := st.rem
  let st₁ := setLimit st size
  match readRelMembersAux (st₁.stream.length + 1) st₁ [] with
  | (st₂, .ok members) => (setLimit st₂ (u64sub limit size), .ok members)
  | (st₂, .error e) => (st₂, .error e)

/-- `O5mReader::read_node`. -/
def readNode (st : DecState) : DecRes Node :=
  match readLimit st with
  | (st₁, .error e) => (st₁, .error e)
  | (st₁, .ok _) =>
    match readDelta st₁ .id with
    | (st₂, .error e) => (st₂, .error e)
    | (st₂, .ok nodeId) =>
      match readMeta st₂ with
      | (st₃, .error e) => (st₃, .error e)
      | (st₃, .ok meta) =>
        match readDeltaCoordinate st₃ with
        | (st₄, .error e) => (st₄, .error e)
        | (st₄, .ok coordinate) =>
          match readTags st₄ with
          | (st₅, .error e) => (st₅, .error e)
          | (st₅, .ok tags) =>
            (st₅, .ok ⟨nodeId, coordinate, { meta with tags := tags }⟩)

/-- `O5mReader::read_way`. -/
def readWay (st : DecState) : DecRes Way :=
  match readLimit st with
  | (st₁, .error e) => (st₁, .error e)
  | (st₁, .ok _) =>
    match readDelta st₁ .id with
    | (st₂, .error e) => (st₂, .error e)
    | (st₂, .ok wayId) =>
      match readMeta st₂ with
      | (st₃, .error e) => (st₃, .error e)
      | (st₃, .ok meta) =>
        match readU64 st₃ with
        | (st₄, .error e) => (st₄, .error e)
        | (st₄, .ok refSize) =>
          match readWayReferences st₄ refSize with
          | (st₅, .error e) => (st₅, .error e)
          | (st₅, .ok refs) =>
            match readTags st₅ with
            | (st₆, .error e) => (st₆, .error e)
            | (st₆, .ok tags) =>
              (st₆, .ok ⟨wayId, refs, { meta with tags := tags }⟩)

/-- `O5mReader::read_relation`. -/
def readRelation (st : DecState) : DecRes Relation :=
  match readLimit st with
  | (st₁, .error e) => (st₁, .error e)
  | (st₁, .ok _) =>
    match readDelta st₁ .id with
    | (st₂, .error e) => (st₂, .error e)
    | (st₂, .ok relId) =>
      match readMeta st₂ with
      | (st₃, .error e) => (st₃, .error e)
      | (st₃, .ok meta) =>
        match readU64 st₃ with
        | (st₄, .error e) => (st₄, .error e)
        | (st₄, .ok memSize) =>
          match readRelationMembers st₄ memSize with
          | (st₅, .error e) => (st₅, .error e)
          | (st₅, .ok members) =>
            match readTags st₅ with
            | (st₆, .error e) => (st₆, .error e)
            | (st₆, .ok tags) =>
              (st₆, .ok ⟨relId, members, { meta with tags := tags }⟩)

/-- `O5mReader::read_boundary`: four plain signed varints (min lon, min lat,
max lon, max lat) cast `as i32`; the produced boundary is frozen. -/
def readBoundary (st : DecState) : DecRes Boundary :=
  match readLimit st with
  | (st₁, .error e) => (st₁, .error e)
  | (st₁, .ok _) =>
    match readI64 st₁ with
    | (st₂, .error e) => (st₂, .error e)
    | (st₂, .ok minLon) =>
      match readI64 st₂ with
      | (st₃, .error e) => (st₃, .error e)
      | (st₃, .ok minLat) =>
        match readI64 st₃ with
        | (st₄, .error e) => (st₄, .error e)
        | (st₄, .ok maxLon) =>
          match readI64 st₄ with
          | (st₅, .error e) => (st₅, .error e)
          | (st₅, .ok maxLat) =>
            (st₅, .ok ⟨⟨toInt32Cast minLat, toInt32Cast minLon⟩,
              ⟨toInt32Cast maxLat, toInt32Cast maxLon⟩, true⟩)

/-- The `read_until_eof` loop of `skip_all`. -/
def skipAllAux : Nat → DecState → DecRes Unit
  | 0, st => (st, .error eofErr)
  | fuel + 1, st =>
    match readU8 st with
    | (st₁, .ok _) => skipAllAux fuel st₁
    | (st₁, .error e) => if isEofBreak e then (st₁, .ok ()) else (st₁, .error e)

/-- `O5mReader::skip_dataset`: only types `≥ 0xF0` carry a length to skip;
anything else (the header type code and the magic bytes included) is
ignored byte by byte by the dataset loop. -/
def skipDataset (st : DecState) (blockType : Nat) : DecRes Unit :=
  if 0xF0 ≤ blockType then
    match readLimit st with
    | (st₁, .ok _) => skipAllAux (st₁.stream.length + 1) st₁
    | (st₁, .error e) => (st₁, .error e)
  else (st, .ok ())

/-- `O5mReader::read_set_type`. -/
def readSetType (st : DecState) : DecRes Nat := readU8 (setLimit st 1)

/-- `O5mReader::parse_next`: `false` stands for the end-of-file dataset. -/
def parseNext (st : DecState) (osm : Osm) : DecRes (Bool × Osm) :=
  match readSetType st with
  | (st₁, .error e) => (st₁, .error e)
  | (st₁, .ok t) =>
    if t = O5M_NODE then
      match readNode st₁ with
      | (st₂, .ok node) => (st₂, .ok (true, osm.addNode node))
      | (st₂, .error e) => (st₂, .error e)
    else if t = O5M_WAY then
      match readWay st₁ with
      | (st₂, .ok way) => (st₂, .ok (true, osm.addWay way))
      | (st₂, .error e) => (st₂, .error e)
    else if t = O5M_RELATION then
      match readRelation st₁ with
      | (st₂, .ok rel) => (st₂, .ok (true, osm.addRelation rel))
      | (st₂, .error e) => (st₂, .error e)
    else if t = O5M_BOUNDING_BOX then
      match readBoundary st₁ with
      | (st₂, .ok b) => (st₂, .ok (true, { osm with boundary := some b }))
      | (st₂, .error e) => (st₂, .error e)
    else if t = O5M_RESET then
      ({ st₁ with table := [], delta := DeltaState.new }, .ok (true, osm))
    else if t = O5M_EOF then (st₁, .ok (false, osm))
    else
      match skipDataset st₁ t with
      | (st₂, .ok _) => (st₂, .ok (true, osm))
      | (st₂, .error e) => (st₂, .error e)

/-- The dataset loop of `O5mReader::read`. -/
def readLoopAux : Nat → DecState → Osm → DecRes Osm
  | 0, st, _ => (st, .error eofErr)
  | fuel + 1, st, osm =>
    match parseNext st osm with
    | (st₁, .ok (true, osm₁)) => readLoopAux fuel st₁ osm₁
    | (st₁, .ok (false, osm₁)) => (st₁, .ok osm₁)
    | (st₁, .error e) => (st₁, .error e)

/-- `O5mReader::read` before error wrapping: the final state is kept so the
byte position at the error is observable. -/
def o5mReadAux (bytes : List Nat) : DecRes Osm :=
  readLoopAux (bytes.length + 1) (DecState.new bytes) Osm.defaultOsm

/-- `impl OsmRead for O5mReader`: on an error that carries a message, the
message is prefixed with the byte position. -/
def o5mRead (bytes : List Nat) : Except Err Osm :=
  match o5mReadAux bytes with
  | (_, .ok osm) => .ok osm
  | (st, .error e) =>
    match e.message with
    | some m =>
      .error ⟨e.kind, some ("Ending at byte " ++ toString st.position ++ ": " ++ m)⟩
    | none => .error e

/-! ## XML codec (`src/osm_io/xml/reader.rs`, `src/osm_io/xml/writer.rs`)

The tokenizer is the external `quick_xml` crate; the reader is modelled at
the level of the events it yields (`Start`, `Empty`, `End`, everything else
ignored; the end of the event list is `Eof`).  Attribute values arrive as
strings.  Byte-level line counting lies below this abstraction and no
property proven here mentions it, so the error line is kept at 0. -/

def strBytes (s : String) : List Nat :=
  s.data.foldr (fun c acc => Nat.toUTF8List c.toNat ++ acc) []
  where Nat.toUTF8List (n : Nat) : List Nat :=
    if n < 0x80 then [n]
    else if n < 0x800 then [0xC0 + n / 64, 0x80 + n % 64]
    else if n < 0x10000 then [0xE0 + n / 4096, 0x80 + n / 64 % 64, 0x80 + n % 64]
    else [0xF0 + n / 262144, 0x80 + n / 4096 % 64, 0x80 + n / 64 % 64, 0x80 + n % 64]

/-- Decimal digit string to `Nat` (`None` when empty or non-digit). -/
def parseDigits (cs : List Char) : Option Nat :=
  if cs = [] then none
  else cs.foldl (fun acc c =>
    acc.bind (fun n => if c.isDigit then some (n * 10 + (c.toNat - 48)) else none))
    (some 0)

/-- `str::parse::<i64>`: optional sign, digits, `i64` range. -/
def parseI64 (s : String) : Option Int :=
  match s.data with
  | '-' :: rest =>
    (parseDigits rest).bind (fun n => if (n : Int) ≤ 2 ^ 63 then some (-(n : Int)) else none)
  | '+' :: rest =>
    (parseDigits rest).bind (fun n => if (n : Int) < 2 ^ 63 then some (n : Int) else none)
  | cs => (parseDigits cs).bind (fun n => if (n : Int) < 2 ^ 63 then some (n : Int) else none)

/-- `str::parse::<u64>`. -/
def parseU64 (s : String) : Option Nat :=
  match s.data with
  | '+' :: rest => (parseDigits rest).bind (fun n => if n < 2 ^ 64 then some n else none)
  | cs => (parseDigits cs).bind (fun n => if n < 2 ^ 64 then some n else none)

/-- `str::parse::<u32>`. -/
def parseU32 (s : String) : Option Nat :=
  match s.data with
  | '+' :: rest => (parseDigits rest).bind (fun n => if n < 2 ^ 32 then some n else none)
  | cs => (parseDigits cs).bind (fun n => if n < 2 ^ 32 then some n else none)

/-- `str::parse::<f64>` followed by `Coordinate::new`'s multiplication by
`1e7` and truncation toward zero, carried out in exact decimal arithmetic
(sign, integer digits, up to seven fraction digits; further digits are cut).
Exact for at most seven fraction digits; `f64` rounding near the last unit
is below the precision any property proven here depends on. -/
def parseCoordE7 (s : String) : Option Int :=
  let core : List Char → Option Int := fun cs =>
    let intPart := cs.takeWhile (fun c => c ≠ '.')
    let rest := cs.dropWhile (fun c => c ≠ '.')
    let frac := (rest.drop 1 ++ ['0', '0', '0', '0', '0', '0', '0']).take 7
    match rest with
    | [] => (parseDigits intPart).map (fun n => (n : Int) * 10000000)
    | _ :: fr =>
      (parseDigits intPart).bind (fun n =>
        (parseDigits frac).bind (fun f =>
          if fr = [] then none
          else some ((n : Int) * 10000000 + (f : Int))))
  match s.data with
  | '-' :: rest => (core rest).map (fun z => -z)
  | '+' :: rest => core rest
  | cs => core cs

/-- Days since the Unix epoch of a proleptic Gregorian civil date (the
standard days-from-civil computation). -/
def daysFromCivil (y m d : Int) : Int :=
  let y' := y - (if m ≤ 2 then 1 else 0)
  let era := (if 0 ≤ y' then y' else y' - 399) / 400
  let yoe := y' - era * 400
  let mp := (m + 9) % 12
  let doy := (153 * mp + 2) / 5 + d - 1
  let doe := yoe * 365 + yoe / 4 - yoe / 100 + doy
  era * 146097 + doe - 719468

/-- Modelled from the spec: "Timestamps are ISO 8601 UTC; parse into Unix
seconds".  The parsing itself lives in the external `chrono` crate, not in
this repository; this function accepts the `YYYY-MM-DDTHH:MM:SSZ` shape the
spec names. -/
def parseTimestamp (s : String) : Option Int :=
  match s.data with
  | [y1, y2, y3, y4, '-', m1, m2, '-', d1, d2, 'T', h1, h2, ':', n1, n2, ':', s1, s2, 'Z'] =>
    (parseDigits [y1, y2, y3, y4]).bind fun y =>
    (parseDigits [m1, m2]).bind fun mo =>
    (parseDigits [d1, d2]).bind fun d =>
    (parseDigits [h1, h2]).bind fun h =>
    (parseDigits [n1, n2]).bind fun mi =>
    (parseDigits [s1, s2]).map fun se =>
      daysFromCivil y mo d * 86400 + (h : Int) * 3600 + (mi : Int) * 60 + (se : Int)
  | _ => none

/-- The XML reader's error kind in this module (`ErrorKind::InvalidData`
carrying the message). -/
inductive XmlErr
  | invalidData (msg : String)
  deriving DecidableEq

/-- The attribute map built from a tag's attributes. -/
structure XmlAttrs where
  pairs : List (String × String)
  deriving DecidableEq

/-- `Attributes::get`. -/
def XmlAttrs.get (a : XmlAttrs) (key : String) : Option String :=
  (a.pairs.find? (fun p => p.1 = key)).map (·.2)

/-- `Attributes::get_required`. -/
def XmlAttrs.getRequired (a : XmlAttrs) (key : String) : Except XmlErr String :=
  match a.get key with
  | some v => .ok v
  | none => .error (.invalidData ("Required attribute '" ++ key ++ "' missing."))

/-- `Attributes::parse` (via any `FromStr`): the invalid-data error names
the field and the offending value. -/
def xmlParse {α : Type} (p : String → Option α) (field s : String) : Except XmlErr α :=
  match p s with
  | some v => .ok v
  | none => .error (.invalidData ("The '" ++ field ++
      "' attribute contains invalid data '" ++ s ++ "'."))

/-- `Attributes::get_parse`. -/
def XmlAttrs.getParse {α : Type} (a : XmlAttrs) (p : String → Option α) (field : String) :
    Except XmlErr α :=
  match a.getRequired field with
  | .ok s => xmlParse p field s
  | .error e => .error e

/-- `Attributes::contains_all`. -/
def XmlAttrs.containsAll (a : XmlAttrs) (keys : List String) : Bool :=
  keys.all (fun k => (a.get k).isSome)

/-- `Attributes::create_coordinate`. -/
def createCoordinate (a : XmlAttrs) : Except XmlErr Coordinate :=
  match a.getParse parseCoordE7 "lat" with
  | .error e => .error e
  | .ok lat =>
    match a.getParse parseCoordE7 "lon" with
    | .error e => .error e
    | .ok lon => .ok ⟨lat, lon⟩

/-- `Attributes::create_boundary`: the constructed boundary is frozen. -/
def createBoundary (a : XmlAttrs) : Except XmlErr Boundary :=
  match a.getParse parseCoordE7 "minlat" with
  | .error e => .error e
  | .ok minLat =>
    match a.getParse parseCoordE7 "minlon" with
    | .error e => .error e
    | .ok minLon =>
      match a.getParse parseCoordE7 "maxlat" with
      | .error e => .error e
      | .ok maxLat =>
        match a.getParse parseCoordE7 "maxlon" with
        | .error e => .error e
        | .ok maxLon => .ok ⟨⟨minLat, minLon⟩, ⟨maxLat, maxLon⟩, true⟩

/-- `Attributes::create_tag`. -/
def createTag (a : XmlAttrs) : Except XmlErr Tag :=
  match a.getRequired "k" with
  | .error e => .error e
  | .ok k =>
    match a.getRequired "v" with
    | .error e => .error e
    | .ok v => .ok ⟨strBytes k, strBytes v⟩

/-- `Attributes::get_timestamp`: its own invalid-timestamp error text. -/
def getTimestamp (a : XmlAttrs) : Except XmlErr Int :=
  match a.getRequired "timestamp" with
  | .error e => .error e
  | .ok s =>
    match parseTimestamp s with
    | some t => .ok t
    | none => .error (.invalidData ("Invalid timestamp '" ++ s ++ "'"))

/-- `Attributes::create_meta`: the author only when `timestamp`, `uid`,
`user` and `changeset` are all present; the version only when present. -/
def createMeta (a : XmlAttrs) : Except XmlErr Meta :=
  let authorE : Except XmlErr (Option AuthorInformation) :=
    if a.containsAll ["timestamp", "uid", "user", "changeset"] then
      match getTimestamp a with
      | .error e => .error e
      | .ok created =>
        match a.getParse parseU64 "uid" with
        | .error e => .error e
        | .ok uid =>
          match a.getRequired "user" with
          | .error e => .error e
          | .ok user =>
            match a.getParse parseU64 "changeset" with
            | .error e => .error e
            | .ok changeSet => .ok (some ⟨created, changeSet, uid, strBytes user⟩)
    else .ok none
  match authorE with
  | .error e => .error e
  | .ok author =>
    match a.get "version" with
    | some vs =>
      match xmlParse parseU32 "version" vs with
      | .error e => .error e
      | .ok v => .ok ⟨[], some v, author⟩
    | none => .ok ⟨[], none, author⟩

/-- `Attributes::create_relation_member`: `ref` parsed as `i64`, `type`
required, `role` defaulted to the empty string; the `type` values the code
accepts are exactly `node`, `way` and `rel`. -/
def createRelationMember (a : XmlAttrs) : Except XmlErr RelationMember :=
  match a.getParse parseI64 "ref" with
  | .error e => .error e
  | .ok memRef =>
    match a.getRequired "type" with
    | .error e => .error e
    | .ok memType =>
      let memRole := (a.get "role").getD ""
      if memType = "node" then .ok (.node memRef (strBytes memRole))
      else if memType = "way" then .ok (.way memRef (strBytes memRole))
      else if memType = "rel" then .ok (.relation memRef (strBytes memRole))
      else .error (.invalidData ("The 'type' attribute contains invalid data '" ++
        memType ++ "'."))

/-- The `quick_xml` events the reader dispatches on. -/
inductive XmlEvent
  | start (name : String) (attrs : XmlAttrs)
  | empty (name : String) (attrs : XmlAttrs)
  | endTag (name : String)
  | other

/-- `XmlReader::read_element_content`: collect empty elements until an end
tag or the end of input; anything else is skipped. -/
def readElementContent : List XmlEvent → List (String × XmlAttrs) × List XmlEvent
  | [] => ([], [])
  | .empty n a :: rest =>
    let (es, r) := readElementContent rest
    ((n, a) :: es, r)
  | .endTag _ :: rest => ([], rest)
  | .start _ _ :: rest => readElementContent rest
  | .other :: rest => readElementContent rest

/-- `parse_node`. -/
def parseNodeX (a : XmlAttrs) : Except XmlErr Node :=
  match a.getParse parseI64 "id" with
  | .error e => .error e
  | .ok nodeId =>
    match createCoordinate a with
    | .error e => .error e
    | .ok c =>
      match createMeta a with
      | .error e => .error e
      | .ok meta => .ok ⟨nodeId, c, meta⟩

/-- `parse_way`. -/
def parseWayX (a : XmlAttrs) : Except XmlErr Way :=
  match a.getParse parseI64 "id" with
  | .error e => .error e
  | .ok wayId =>
    match createMeta a with
    | .error e => .error e
    | .ok meta => .ok ⟨wayId, [], meta⟩

/-- `parse_relation`. -/
def parseRelationX (a : XmlAttrs) : Except XmlErr Relation :=
  match a.getParse parseI64 "id" with
  | .error e => .error e
  | .ok relId =>
    match createMeta a with
    | .error e => .error e
    | .ok meta => .ok ⟨relId, [], meta⟩

/-- `create_tags` over the collected content events. -/
def createTags (events : List (String × XmlAttrs)) : Except XmlErr (List Tag) :=
  match events with
  | [] => .ok []
  | (n, a) :: rest =>
    if n = "tag" then
      match createTag a with
      | .error e => .error e
      | .ok t =>
        match createTags rest with
        | .error e => .error e
        | .ok ts => .ok (t :: ts)
    else createTags rest

/-- `create_way_refs`. -/
def createWayRefs (events : List (String × XmlAttrs)) : Except XmlErr (List Int) :=
  match events with
  | [] => .ok []
  | (n, a) :: rest =>
    if n = "nd" then
      match a.getParse parseI64 "ref" with
      | .error e => .error e
      | .ok r =>
        match createWayRefs rest with
        | .error e => .error e
        | .ok rs => .ok (r :: rs)
    else createWayRefs rest

/-- `create_relation_members`. -/
def createRelationMembers (events : List (String × XmlAttrs)) :
    Except XmlErr (List RelationMember) :=
  match events with
  | [] => .ok []
  | (n, a) :: rest =>
    if n = "member" then
      match createRelationMember a with
      | .error e => .error e
      | .ok m =>
        match createRelationMembers rest with
        | .error e => .error e
        | .ok ms => .ok (m :: ms)
    else createRelationMembers rest

/-- `XmlReader::parse_empty_element`: only `node` and `bounds` matter. -/
def parseEmptyElement (osm : Osm) (name : String) (a : XmlAttrs) : Except XmlErr Osm :=
  if name = "node" then
    match parseNodeX a with
    | .error e => .error e
    | .ok n => .ok (osm.addNode n)
  else if name = "bounds" then
    match createBoundary a with
    | .error e => .error e
    | .ok b => .ok { osm with boundary := some b }
  else .ok osm

/-- `XmlReader::parse_element` on a start tag: `osm` is skipped without
touching its content; everything else has its content read first. -/
def parseElement (osm : Osm) (name : String) (a : XmlAttrs) (rest : List XmlEvent) :
    Except XmlErr Osm × List XmlEvent :=
  if name = "osm" then (.ok osm, rest)
  else
    let (content, rest') := readElementContent rest
    if name = "node" then
      (match parseNodeX a with
       | .error e => .error e
       | .ok n =>
         match createTags content with
         | .error e => .error e
         | .ok tags => .ok (osm.addNode { n with meta := { n.meta with tags := tags } }),
       rest')
    else if name = "way" then
      (match parseWayX a with
       | .error e => .error e
       | .ok w =>
         match createWayRefs content with
         | .error e => .error e
         | .ok refs =>
           match createTags content with
           | .error e => .error e
           | .ok tags =>
             .ok (osm.addWay { w with refs := refs, meta := { w.meta with tags := tags } }),
       rest')
    else if name = "relation" then
      (match parseRelationX a with
       | .error e => .error e
       | .ok r =>
         match createRelationMembers content with
         | .error e => .error e
         | .ok members =>
           match createTags content with
           | .error e => .error e
           | .ok tags =>
             .ok (osm.addRelation
               { r with members := members, meta := { r.meta with tags := tags } }),
       rest')
    else (.ok osm, rest')

/-- The event loop of `XmlReader::read`.  Each iteration consumes at least
one event (`parseElement` returns a suffix of the remaining events), so the
fuel `events.length + 1` passed by `xmlRead` cannot run out. -/
def xmlParseEvents : Nat → List XmlEvent → Osm → Except XmlErr Osm
  | 0, _, _ => .error (.invalidData "")
  | _ + 1, [], osm => .ok osm
  | fuel + 1, .start name a :: rest, osm =>
    match parseElement osm name a rest with
    | (.ok osm₁, rest') => xmlParseEvents fuel rest' osm₁
    | (.error e, _) => .error e
  | fuel + 1, .empty name a :: rest, osm =>
    match parseEmptyElement osm name a with
    | .ok osm₁ => xmlParseEvents fuel rest osm₁
    | .error e => .error e
  | fuel + 1, .endTag _ :: rest, osm => xmlParseEvents fuel rest osm
  | fuel + 1, .other :: rest, osm => xmlParseEvents fuel rest osm

/-- `impl OsmReader for XmlReader::read`: run the event loop from
`Osm::default()`, then unfreeze the boundary of the result. -/
def xmlRead (events : List XmlEvent) : Except XmlErr Osm :=
  match xmlParseEvents (events.length + 1) events Osm.defaultOsm with
  | .error e => .error e
  | .ok osm => .ok { osm with boundary := osm.boundary.map (fun b => { b with freeze := false }) }

/-- `add_member_attributes` of the XML writer: the `type` attribute emitted
for each member variant. -/
def writerMemberType : RelationMember → String
  | .node _ _ => "node"
  | .way _ _ => "way"
  | .relation _ _ => "relation"

/-- Byte-valid varint body: continuation bit set on every byte but the
last. -/
def VarintBytes : List Nat → Prop
  | [] => False
  | b :: rest => if rest = [] then b < 128 else 128 ≤ b ∧ VarintBytes rest

def witInvalidRef : List Nat :=
  [0x12, 0x28, 0x90, 0x2E, 0x00, 0x11, 0xF4, 0x98, 0x83, 0x0B,
   0x03, 0x00, 0x00, 0x00, 0x00, 0x00, 0x00, 0x00]

def witMetaState : DecState :=
  ⟨[0x05, 0xE4, 0x8E, 0xA7, 0xCA, 0x09, 0x94, 0xFE, 0xD2, 0x05, 0x00,
    0x85, 0xE3, 0x02, 0x00, 0x55, 0x53, 0x63, 0x68, 0x61, 0x00],
   50, 50, 0, [], DeltaState.new⟩

/-! ## VarInt round-trip lemmas -/

theorem uvarintEncodeAux_decode (fuel : Nat) :
    ∀ v : Nat, v < 128 ^ fuel → uvarintDecode (uvarintEncodeAux fuel v) = v := by
  induction fuel with
  | zero =>
    intro v hv
    have : v = 0 := by simpa using hv
    subst this
    rfl
  | succ n ih =>
    intro v hv
    rw [uvarintEncodeAux]
    by_cases h : v > 127
    · rw [if_pos h, uvarintDecode]
      have hd : v / 128 < 128 ^ n := by
        rw [pow_succ] at hv
        exact Nat.div_lt_of_lt_mul (by omega)
      rw [ih (v / 128) hd]
      have h2 : 128 ≤ v % 128 + 128 := by omega
      rw [if_pos h2]
      omega
    · rw [if_neg h]
      by_cases h0 : v > 0
      · rw [if_pos h0, uvarintDecode]
        have : ¬ 128 ≤ v := by omega
        rw [if_neg this]
        omega
      · rw [if_neg h0]
        have : v = 0 := by omega
        subst this
        rfl

theorem uvarint_roundtrip (v : Nat) (hv : v < 2 ^ 70) :
    uvarintDecode (uvarintEncode v) = v := by
  have : (2 : Nat) ^ 70 = 128 ^ 10 := by norm_num
  exact uvarintEncodeAux_decode 10 v (by omega)

theorem varint_roundtrip (x : Int) (h₁ : -(2 ^ 63) ≤ x) (h₂ : x < 2 ^ 63) :
    varintDecode? (varintEncode x) = some x := by
  rw [varintEncode]
  have hv : (if x < 0 then -x - 1 else x).toNat < 2 ^ 63 := by
    split <;> omega
  set v : Nat := (if x < 0 then -x - 1 else x).toNat with hvdef
  have hback : (if x < 0 then -(v : Int) - 1 else (v : Int)) = x := by
    rw [hvdef]
    split <;> omega
  have hrest : uvarintDecode (uvarintEncode (v / 64)) = v / 64 :=
    uvarint_roundtrip _ (by omega)
  by_cases h : v > 0x3F
  · rw [if_pos h]
    have hle : v % 64 * 2 + (if x < 0 then 1 else 0) < 128 := by
      have := Nat.mod_lt v (y := 64) (by omega)
      split <;> omega
    rw [varintDecode?]
    have h128 : 128 ≤ v % 64 * 2 + (if x < 0 then 1 else 0) + 128 := by omega
    simp only [if_pos h128, hrest]
    have hmod : (v % 64 * 2 + (if x < 0 then 1 else 0) + 128) % 2 = 1 ↔ x < 0 := by
      split <;> omega
    have hdiv : (v % 64 * 2 + (if x < 0 then 1 else 0) + 128) % 128 / 2 = v % 64 := by
      split <;> omega
    have hval : (v % 64 * 2 + (if x < 0 then 1 else 0) + 128) % 128 / 2 + 64 * (v / 64) = v := by
      rw [hdiv]; omega
    rw [hval]
    by_cases hx : x < 0
    · have : (v % 64 * 2 + (if x < 0 then 1 else 0) + 128) % 2 = 1 := hmod.mpr hx
      rw [if_pos this]
      rw [hvdef]
      simp only [if_pos hx]
      congr 1
      omega
    · have : ¬ (v % 64 * 2 + (if x < 0 then 1 else 0) + 128) % 2 = 1 := by
        intro hc; exact hx (hmod.mp hc)
      rw [if_neg this]
      rw [hvdef]
      simp only [if_neg hx]
      congr 1
      omega
  · rw [if_neg h]
    rw [varintDecode?]
    have hle : v % 64 * 2 + (if x < 0 then 1 else 0) < 128 := by
      have := Nat.mod_lt v (y := 64) (by omega)
      split <;> omega
    have h128 : ¬ 128 ≤ v % 64 * 2 + (if x < 0 then 1 else 0) := by omega
    simp only [if_neg h128]
    have hmod : (v % 64 * 2 + (if x < 0 then 1 else 0)) % 2 = 1 ↔ x < 0 := by
      split <;> omega
    have hdiv : (v % 64 * 2 + (if x < 0 then 1 else 0)) % 128 / 2 = v := by
      split <;> omega
    rw [hdiv]
    by_cases hx : x < 0
    · rw [if_pos (hmod.mpr hx)]
      rw [hvdef]
      simp only [if_pos hx]
      congr 1
      omega
    · have : ¬ (v % 64 * 2 + (if x < 0 then 1 else 0)) % 2 = 1 := by
        intro hc; exact hx (hmod.mp hc)
      rw [if_neg this]
      rw [hvdef]
      simp only [if_neg hx]
      congr 1
      omega

/-- C2: for every signed 64-bit integer and every unsigned integer whose
payload fits in 63 bits, decoding the VarInt encoding returns the original
value: `VarInt::from(x).into_i64() = x` and `VarInt::from(u).into_u64() = u`. -/
theorem c2_varint_roundtrip :
    (∀ u : Nat, u < 2 ^ 63 → uvarintDecode (uvarintEncode u) = u) ∧
    (∀ x : Int, -(2 ^ 63) ≤ x → x < 2 ^ 63 → varintDecode? (varintEncode x) = some x) :=
  ⟨fun u hu => uvarint_roundtrip u (by omega), fun x h₁ h₂ => varint_roundtrip x h₁ h₂⟩

theorem c2_varint_roundtrip_witness :
    uvarintDecode (uvarintEncode 5922698) = 5922698 ∧
    varintDecode? (varintEncode (-65)) = some (-65) :=
  ⟨c2_varint_roundtrip.1 5922698 (by norm_num),
   c2_varint_roundtrip.2 (-65) (by norm_num) (by norm_num)⟩

/-- C3 as stated is false at the one-byte unsigned encoding `[0x00]`: it
decodes to 0, but `VarInt::from(0u64)` is the empty byte vector, not
`[0x00]`. -/
theorem c3_counterexample : uvarintEncode (uvarintDecode [0x00]) ≠ [0x00] := by decide

/-- C3 amended: re-encoding the decoded value reproduces the bytes for every
encoding the encoder itself produces (the canonical encodings of in-range
values), for both the unsigned and the signed codec; the one-byte unsigned
encoding `[0x00]`, which no encoder output contains, is excluded (it decodes
to 0, which re-encodes to the empty byte string). -/
theorem c3_reencode_canonical :
    (∀ u : Nat, u < 2 ^ 63 →
      uvarintEncode (uvarintDecode (uvarintEncode u)) = uvarintEncode u) ∧
    (∀ x : Int, -(2 ^ 63) ≤ x → x < 2 ^ 63 →
      varintEncode (varintDecodeTot (varintEncode x)) = varintEncode x) := by
  constructor
  · intro u hu
    rw [uvarint_roundtrip u (by omega)]
  · intro x h₁ h₂
    rw [varintDecodeTot, varint_roundtrip x h₁ h₂]
    rfl

theorem c3_reencode_canonical_witness :
    uvarintEncode (uvarintDecode (uvarintEncode 16384)) = uvarintEncode 16384 ∧
    varintEncode (varintDecodeTot (varintEncode 5922698)) = varintEncode 5922698 :=
  ⟨c3_reencode_canonical.1 16384 (by norm_num),
   c3_reencode_canonical.2 5922698 (by norm_num) (by norm_num)⟩

/-! ## String reference table bounds (C9) -/

theorem strTablePush_wf (t : StrTable) (b : List Nat)
    (h₁ : t.length ≤ 15000) (h₂ : ∀ e ∈ t, e.length ≤ 250) :
    (strTablePush t b).length ≤ 15000 ∧ ∀ e ∈ strTablePush t b, e.length ≤ 250 := by
  rw [strTablePush]
  simp only [MAX_STRING_TABLE_SIZE, MAX_STRING_REFERENCE_LENGTH]
  split
  · exact ⟨h₁, h₂⟩
  · next hb =>
    split
    · next hl =>
      refine ⟨?_, ?_⟩
      · simp only [List.length_cons, List.length_dropLast]
        omega
      · intro e he
        rcases List.mem_cons.mp he with rfl | he'
        · omega
        · exact h₂ e ((List.dropLast_sublist t).subset he')
    · next hl =>
      refine ⟨?_, ?_⟩
      · simp only [List.length_cons]
        omega
      · intro e he
        rcases List.mem_cons.mp he with rfl | he'
        · omega
        · exact h₂ e he'

theorem strOpApply_wf (t : StrTable) (op : StrOp)
    (h₁ : t.length ≤ 15000) (h₂ : ∀ e ∈ t, e.length ≤ 250) :
    (strOpApply t op).length ≤ 15000 ∧ ∀ e ∈ strOpApply t op, e.length ≤ 250 := by
  cases op with
  | push b => exact strTablePush_wf t b h₁ h₂
  | reference b =>
    simp only [strOpApply, strTableReference]
    split
    · exact ⟨h₁, h₂⟩
    · split
      · exact ⟨h₁, h₂⟩
      · exact strTablePush_wf t b h₁ h₂
  | clear => simp [strOpApply]

theorem runStrOps_wf (ops : List StrOp) :
    (runStrOps ops).length ≤ 15000 ∧ ∀ e ∈ runStrOps ops, e.length ≤ 250 := by
  rw [runStrOps]
  suffices h : ∀ t : StrTable, t.length ≤ 15000 → (∀ e ∈ t, e.length ≤ 250) →
      (ops.foldl strOpApply t).length ≤ 15000 ∧
      ∀ e ∈ ops.foldl strOpApply t, e.length ≤ 250 by
    exact h [] (by simp) (by simp)
  induction ops with
  | nil => intro t h₁ h₂; simpa using ⟨h₁, h₂⟩
  | cons op rest ih =>
    intro t h₁ h₂
    rw [List.foldl_cons]
    obtain ⟨g₁, g₂⟩ := strOpApply_wf t op h₁ h₂
    exact ih _ g₁ g₂

/-- C9: under any sequence of push/reference/clear operations the string
reference table holds at most 15000 entries, none longer than 250 bytes;
a byte string longer than 250 bytes is returned as a literal with the table
untouched (never admitted, never turned into a reference token); and right
after a clear every lookup of a reference `r ≥ 1` fails (the table is
empty) until a literal is inserted. -/
theorem c9_string_table (ops : List StrOp) :
    (runStrOps ops).length ≤ 15000 ∧
    (∀ e ∈ runStrOps ops, e.length ≤ 250) ∧
    (∀ b : List Nat, b.length > 250 →
      strTableReference (runStrOps ops) b = (b, runStrOps ops)) ∧
    (∀ r : Nat, 1 ≤ r → strTableGet (runStrOps (ops ++ [StrOp.clear])) r = none) := by
  obtain ⟨h₁, h₂⟩ := runStrOps_wf ops
  refine ⟨h₁, h₂, ?_, ?_⟩
  · intro b hb
    rw [strTableReference]
    rw [if_pos (by simpa [MAX_STRING_REFERENCE_LENGTH] using hb)]
  · intro r _
    have hclear : runStrOps (ops ++ [StrOp.clear]) = [] := by
      rw [runStrOps, List.foldl_append]
      rfl
    rw [hclear, strTableGet]
    simp

set_option maxRecDepth 4000 in
theorem c9_string_table_witness :
    (runStrOps [StrOp.push [1, 1], StrOp.reference [2, 2]]).length ≤ 15000 ∧
    (∀ e ∈ runStrOps [StrOp.push [1, 1], StrOp.reference [2, 2]], e.length ≤ 250) ∧
    (strTableReference (runStrOps [StrOp.push [1, 1], StrOp.reference [2, 2]])
      (List.replicate 251 7) =
      (List.replicate 251 7, runStrOps [StrOp.push [1, 1], StrOp.reference [2, 2]])) ∧
    strTableGet (runStrOps ([StrOp.push [1, 1], StrOp.reference [2, 2]] ++ [StrOp.clear])) 3 =
      none := by
  obtain ⟨h₁, h₂, h₃, h₄⟩ := c9_string_table [StrOp.push [1, 1], StrOp.reference [2, 2]]
  exact ⟨h₁, h₂, h₃ _ (by decide), h₄ 3 (by decide)⟩

/-! ## `max_id` after public operations (C8) -/

/-- C8 as stated is false: `Osm::add_way` (and `add_relation`) never touch
`max_id`, so a way with id 1 added to a fresh container leaves `max_id = 0`
below the contained way's id. -/
theorem c8_counterexample :
    (runOsmOps [OsmOp.addWay ⟨1, [], Meta.defaultMeta⟩]).max_id = 0 ∧
    (⟨1, [], Meta.defaultMeta⟩ : Way) ∈ (runOsmOps [OsmOp.addWay ⟨1, [], Meta.defaultMeta⟩]).ways ∧
    ¬ ((1 : Int) ≤ (runOsmOps [OsmOp.addWay ⟨1, [], Meta.defaultMeta⟩]).max_id) := by
  decide

/-- C8 amended: after any sequence of `add_node` / `add_way` /
`add_relation` calls, `max_id ≥ id` holds for every contained node (only
`add_node` updates `max_id`; ways and relations leave it unchanged). -/
theorem c8_max_id (ops : List OsmOp) :
    ∀ n ∈ (runOsmOps ops).nodes, n.id ≤ (runOsmOps ops).max_id := by
  rw [runOsmOps]
  suffices h : ∀ osm : Osm, (∀ n ∈ osm.nodes, n.id ≤ osm.max_id) →
      ∀ n ∈ (ops.foldl osmOpApply osm).nodes, n.id ≤ (ops.foldl osmOpApply osm).max_id by
    exact h Osm.defaultOsm (by simp [Osm.defaultOsm])
  induction ops with
  | nil => intro osm h; simpa
  | cons op rest ih =>
    intro osm h
    rw [List.foldl_cons]
    apply ih
    cases op with
    | addNode m =>
      intro n hn
      simp only [osmOpApply, Osm.addNode] at hn ⊢
      rcases List.mem_append.mp hn with h' | h'
      · exact le_trans (h n h') (le_max_left _ _)
      · rw [List.mem_singleton.mp h']
        exact le_max_right _ _
    | addWay w =>
      intro n hn
      simpa only [osmOpApply, Osm.addWay] using h n hn
    | addRelation r =>
      intro n hn
      simpa only [osmOpApply, Osm.addRelation] using h n hn

theorem c8_max_id_witness :
    (⟨7, ⟨1, 2⟩, Meta.defaultMeta⟩ : Node).id ≤
      (runOsmOps [OsmOp.addNode ⟨7, ⟨1, 2⟩, Meta.defaultMeta⟩]).max_id :=
  c8_max_id [OsmOp.addNode ⟨7, ⟨1, 2⟩, Meta.defaultMeta⟩] _ (by decide)

/-! ## Builder reuse of an indexed coordinate (C10) -/

/-- C10: when the coordinate already resolves in the map's index,
`OsmBuilder::add_node` returns the existing id and leaves the container
completely unchanged — no node appended, `max_id` untouched, the supplied
tags discarded. -/
theorem c10_builder_frame (osm : Osm) (c : Coordinate) (tags : List Tag) (i : Int)
    (h : osm.findNodeId c = some i) :
    builderAddNode osm c tags = (i, osm) := by
  rw [builderAddNode, h]

theorem c10_builder_frame_witness :
    builderAddNode (runOsmOps [OsmOp.addNode ⟨7, ⟨1, 2⟩, Meta.defaultMeta⟩]) ⟨1, 2⟩
      [⟨[107], [118]⟩] = (7, runOsmOps [OsmOp.addNode ⟨7, ⟨1, 2⟩, Meta.defaultMeta⟩]) :=
  c10_builder_frame _ _ _ _ (by decide)

/-! ## XML member types (C6) -/

/-- C6: the XML writer emits `type="relation"` for relation members, and the
reader accepts `node`, `way` and `rel` — but rejects `relation` itself with
the invalid-data error, although the claim (and the library's own writer
output) requires it to be accepted. -/
theorem c6_member_type_relation_rejected :
    createRelationMember ⟨[("type", "relation"), ("ref", "46"), ("role", "r")]⟩ =
      .error (.invalidData "The 'type' attribute contains invalid data 'relation'.") ∧
    createRelationMember ⟨[("type", "node"), ("ref", "1")]⟩ = .ok (.node 1 []) ∧
    createRelationMember ⟨[("type", "way"), ("ref", "2")]⟩ = .ok (.way 2 []) ∧
    createRelationMember ⟨[("type", "rel"), ("ref", "3")]⟩ = .ok (.relation 3 []) ∧
    createRelationMember ⟨[("type", "INVALID"), ("ref", "2")]⟩ =
      .error (.invalidData "The 'type' attribute contains invalid data 'INVALID'.") ∧
    writerMemberType (.relation 46 [114]) = "relation" := by
  refine ⟨?_, ?_, ?_, ?_, ?_, ?_⟩ <;> rfl

/-! ## Boundary freezing (C5) -/

theorem Boundary.expand_freeze (b : Boundary) (c : Coordinate) :
    (b.expand c).freeze = b.freeze := by
  rw [Boundary.expand]
  split <;> rfl

theorem readBoundary_frozen (st st' : DecState) (b : Boundary)
    (h : readBoundary st = (st', Except.ok b)) : b.freeze = true := by
  rw [readBoundary] at h
  repeat any_goals split at h
  all_goals simp only [Prod.mk.injEq] at h
  any_goals exact absurd h.2 (fun c => Except.noConfusion c)
  rw [← Except.ok.inj h.2]

theorem parseNext_frozen (st st' : DecState) (osm osm' : Osm) (c : Bool)
    (hosm : ∀ b, osm.boundary = some b → b.freeze = true)
    (h : parseNext st osm = (st', Except.ok (c, osm'))) :
    ∀ b, osm'.boundary = some b → b.freeze = true := by
  rw [parseNext] at h
  split at h
  · simp_all
  · next st₁ t =>
    split at h
    · -- node
      split at h
      · next node heq =>
        simp only [Prod.mk.injEq, Except.ok.injEq] at h
        obtain ⟨-, -, h₂⟩ := h
        subst h₂
        intro b hb
        simp only [Osm.addNode, Option.map_eq_some'] at hb
        obtain ⟨b₀, hb₀, rfl⟩ := hb
        rw [Boundary.expand_freeze]
        exact hosm b₀ hb₀
      · simp_all
    · split at h
      · -- way
        split at h
        · next way heq =>
          simp only [Prod.mk.injEq, Except.ok.injEq] at h
          obtain ⟨-, -, h₂⟩ := h
          subst h₂
          simpa [Osm.addWay] using hosm
        · simp_all
      · split at h
        · -- relation
          split at h
          · next rel heq =>
            simp only [Prod.mk.injEq, Except.ok.injEq] at h
            obtain ⟨-, -, h₂⟩ := h
            subst h₂
            simpa [Osm.addRelation] using hosm
          · simp_all
        · split at h
          · -- bounding box
            split at h
            · next bnd heq =>
              simp only [Prod.mk.injEq, Except.ok.injEq] at h
              obtain ⟨-, -, h₂⟩ := h
              subst h₂
              intro b hb
              simp only [Option.some.injEq] at hb
              subst hb
              exact readBoundary_frozen _ _ _ heq
            · simp_all
          · split at h
            · -- reset
              simp only [Prod.mk.injEq, Except.ok.injEq] at h
              obtain ⟨-, -, h₂⟩ := h
              subst h₂
              exact hosm
            · split at h
              · -- eof
                simp only [Prod.mk.injEq, Except.ok.injEq] at h
                obtain ⟨-, -, h₂⟩ := h
                subst h₂
                exact hosm
              · -- skip
                split at h
                · simp only [Prod.mk.injEq, Except.ok.injEq] at h
                  obtain ⟨-, -, h₂⟩ := h
                  subst h₂
                  exact hosm
                · simp_all

theorem readLoopAux_frozen (fuel : Nat) :
    ∀ st osm st' osm', (∀ b, osm.boundary = some b → b.freeze = true) →
      readLoopAux fuel st osm = (st', Except.ok osm') →
      ∀ b, osm'.boundary = some b → b.freeze = true := by
  induction fuel with
  | zero =>
    intro st osm st' osm' hosm h
    rw [readLoopAux] at h
    simp_all
  | succ n ih =>
    intro st osm st' osm' hosm h
    rw [readLoopAux] at h
    split at h
    · next st₁ osm₁ heq =>
      exact ih _ _ _ _ (parseNext_frozen _ _ _ _ _ hosm heq) h
    · next st₁ osm₁ heq =>
      simp only [Prod.mk.injEq, Except.ok.injEq] at h
      obtain ⟨-, h₂⟩ := h
      subst h₂
      exact parseNext_frozen _ _ _ _ _ hosm heq
    · simp_all

theorem xmlRead_unfrozen (events : List XmlEvent) (osm : Osm) (b : Boundary)
    (h : xmlRead events = Except.ok osm) (hb : osm.boundary = some b) :
    b.freeze = false := by
  rw [xmlRead] at h
  split at h
  · simp_all
  · next osm₀ heq =>
    simp only [Except.ok.injEq] at h
    subst h
    simp only [Option.map_eq_some'] at hb
    obtain ⟨b₀, -, rfl⟩ := hb
    rfl

/-- C5 corrected: every boundary the o5m decoder parses from a bounding-box
dataset is frozen, and once the map under construction holds a frozen
boundary the dataset loop keeps it frozen to the returned map; the XML
reader parses `<bounds>` as frozen but unfreezes the boundary before
returning, so the map an XML read returns never holds a frozen boundary. -/
theorem c5_boundary_freeze :
    (∀ st st' b, readBoundary st = (st', Except.ok b) → b.freeze = true) ∧
    (∀ fuel st osm st' osm', (∀ b, osm.boundary = some b → b.freeze = true) →
      readLoopAux fuel st osm = (st', Except.ok osm') →
      ∀ b, osm'.boundary = some b → b.freeze = true) ∧
    (∀ events osm b, xmlRead events = Except.ok osm → osm.boundary = some b →
      b.freeze = false) :=
  ⟨fun _ _ _ h => readBoundary_frozen _ _ _ h,
   fun fuel _ _ _ _ hosm h => readLoopAux_frozen fuel _ _ _ _ hosm h,
   fun _ _ _ h hb => xmlRead_unfrozen _ _ _ h hb⟩

/-- C5 as stated is false for the XML half: a `<bounds>` element decodes
successfully, but the boundary in the returned map is unfrozen (the reader
unfreezes it before returning). -/
theorem c5_counterexample :
    xmlRead [.empty "bounds" ⟨[("minlat", "58.24"), ("minlon", "15.16"),
        ("maxlat", "62.18"), ("maxlon", "17.34")]⟩] =
      Except.ok ⟨some ⟨⟨582400000, 151600000⟩, ⟨621800000, 173400000⟩, false⟩,
        [], [], [], 0, []⟩ := by
  decide

theorem c5_boundary_freeze_witness :
    (⟨⟨1, 2⟩, ⟨3, 4⟩, true⟩ : Boundary).freeze = true ∧
    (⟨⟨5, 6⟩, ⟨7, 8⟩, true⟩ : Boundary).freeze = true ∧
    (⟨⟨582400000, 151600000⟩, ⟨621800000, 173400000⟩, false⟩ : Boundary).freeze = false :=
  ⟨c5_boundary_freeze.1 (DecState.new [4, 4, 2, 8, 6])
      (readBoundary (DecState.new [4, 4, 2, 8, 6])).1 _ (by decide),
   c5_boundary_freeze.2.1 1 (DecState.new [0xFE])
      ⟨some ⟨⟨5, 6⟩, ⟨7, 8⟩, true⟩, [], [], [], 0, []⟩
      (readLoopAux 1 (DecState.new [0xFE])
        ⟨some ⟨⟨5, 6⟩, ⟨7, 8⟩, true⟩, [], [], [], 0, []⟩).1
      ⟨some ⟨⟨5, 6⟩, ⟨7, 8⟩, true⟩, [], [], [], 0, []⟩
      (fun b hb => by
        simp only [Option.some.injEq] at hb
        rw [← hb])
      (by decide) _ rfl,
   c5_boundary_freeze.2.2
      [.empty "bounds" ⟨[("minlat", "58.24"), ("minlon", "15.16"),
        ("maxlat", "62.18"), ("maxlon", "17.34")]⟩]
      ⟨some ⟨⟨582400000, 151600000⟩, ⟨621800000, 173400000⟩, false⟩, [], [], [], 0, []⟩
      _ (by decide) rfl⟩

/-! ## Error position prefix (C7) -/

/-- C7 as stated is false: an error that carries no message (here the plain
unexpected-end-of-file IO error on a truncated stream) is returned without
the position prefix; its rendered text is "Unexpected end of file.". -/
theorem c7_counterexample :
    o5mRead [0x12] = Except.error ⟨.ioUnexpectedEof, none⟩ ∧
    renderErr ⟨.ioUnexpectedEof, none⟩ = "Unexpected end of file." ∧
    (renderErr ⟨.ioUnexpectedEof, none⟩).take 15 ≠ "Ending at byte " := by
  refine ⟨by decide, rfl, by decide⟩

/-- C7 amended: whenever the top-level o5m read returns an error that
carries a message, the returned error renders as
"Ending at byte N: " followed by the inner message, with `N` the decoder's
byte offset at the error. -/
theorem c7_error_position (bytes : List Nat) (st : DecState) (e : Err) (m : String)
    (h : o5mReadAux bytes = (st, Except.error e)) (hm : e.message = some m) :
    o5mRead bytes =
      Except.error ⟨e.kind, some ("Ending at byte " ++ toString st.position ++ ": " ++ m)⟩ ∧
    renderErr ⟨e.kind, some ("Ending at byte " ++ toString st.position ++ ": " ++ m)⟩ =
      "Ending at byte " ++ toString st.position ++ ": " ++ m := by
  constructor
  · simp only [o5mRead, h, hm]
  · rfl

theorem c7_error_position_witness :
    (o5mReadAux witInvalidRef).1.position = 11 ∧
    o5mRead witInvalidRef = Except.error ⟨.parseError,
      some ("Ending at byte " ++ toString (o5mReadAux witInvalidRef).1.position ++ ": " ++
        "String reference '3' not found in table with size '0'.")⟩ :=
  ⟨by decide,
   (c7_error_position witInvalidRef (o5mReadAux witInvalidRef).1
      ⟨.parseError, some "String reference '3' not found in table with size '0'."⟩
      "String reference '3' not found in table with size '0'."
      (by decide) rfl).1⟩

/-! ## Optional version and author in decoded metas (C4) -/

/-- C4: in `read_meta`, a version varint that reads 0 yields an entity with
no version and no author; a nonzero version with a delta-decoded time of 0
records the version but no author (hence no change-set); and when the time
is nonzero the author record carries exactly the decoded creation time
(signed 64-bit Unix seconds), change-set, uid and user name. -/
theorem c4_meta_version_author (st st₁ : DecState) (v : Nat)
    (h : readU64 st = (st₁, Except.ok v)) :
    (toUInt32Cast v = 0 → readMeta st = (st₁, Except.ok ⟨[], none, none⟩)) ∧
    (∀ st₂ t, toUInt32Cast v ≠ 0 → readDelta st₁ .time = (st₂, Except.ok t) → t = 0 →
      readMeta st = (st₂, Except.ok ⟨[], some (toUInt32Cast v), none⟩)) ∧
    (∀ st₂ st₃ st₄ t cs uid user, toUInt32Cast v ≠ 0 →
      readDelta st₁ .time = (st₂, Except.ok t) → t ≠ 0 →
      readDelta st₂ .changeSet = (st₃, Except.ok cs) →
      readUser st₃ = (st₄, Except.ok (uid, user)) →
      readMeta st = (st₄, Except.ok ⟨[], some (toUInt32Cast v),
        some ⟨t, toUInt64Cast cs, uid, user⟩⟩)) := by
  refine ⟨?_, ?_, ?_⟩
  · intro h0
    simp only [readMeta, h, h0, if_pos]
  · intro st₂ t hv ht ht0
    subst ht0
    simp only [readMeta, h, if_neg hv, readAuthorInfo, ht, if_pos]
  · intro st₂ st₃ st₄ t cs uid user hv ht ht0 hcs huser
    simp only [readMeta, h, if_neg hv, readAuthorInfo, ht, if_neg ht0, hcs, huser]

theorem c4_meta_version_author_witness :
    readMeta witMetaState =
      ((readUser (readDelta (readDelta (readU64 witMetaState).1 .time).1 .changeSet).1).1,
        Except.ok ⟨[], some 5,
          some ⟨1285874610, 5922698, 45445, [0x55, 0x53, 0x63, 0x68, 0x61]⟩⟩) :=
  (c4_meta_version_author witMetaState (readU64 witMetaState).1 5 (by decide)).2.2
    (readDelta (readU64 witMetaState).1 .time).1
    (readDelta (readDelta (readU64 witMetaState).1 .time).1 .changeSet).1
    (readUser (readDelta (readDelta (readU64 witMetaState).1 .time).1 .changeSet).1).1
    1285874610 5922698 45445 [0x55, 0x53, 0x63, 0x68, 0x61]
    (by decide) (by decide) (by decide) (by decide) (by decide)

/-! ## Round-trip development: varint wire lemmas -/

theorem uvarintEncodeAux_length_le (fuel : Nat) :
    ∀ (k v : Nat), v < 128 ^ k → (uvarintEncodeAux fuel v).length ≤ k := by
  induction fuel with
  | zero => intro k v _; simp [uvarintEncodeAux]
  | succ n ih =>
    intro k v hv
    rw [uvarintEncodeAux]
    by_cases h : v > 127
    · have hk : k ≠ 0 := by
        intro hk0; subst hk0; simp at hv; omega
      obtain ⟨k', rfl⟩ := Nat.exists_eq_succ_of_ne_zero hk
      rw [if_pos h]
      have : v / 128 < 128 ^ k' := by
        rw [pow_succ] at hv
        exact Nat.div_lt_of_lt_mul (by omega)
      simpa using ih k' (v / 128) this
    · rw [if_neg h]
      by_cases h0 : v > 0
      · have hk : k ≠ 0 := by
          intro hk0; subst hk0; simp at hv; omega
        rw [if_pos h0]
        simp
        omega
      · rw [if_neg h0]; simp

theorem uvarintEncode_length_le (v : Nat) (hv : v < 2 ^ 63) :
    (uvarintEncode v).length ≤ 9 := by
  have : (128 : Nat) ^ 9 = 2 ^ 63 := by norm_num
  exact uvarintEncodeAux_length_le 10 9 v (by omega)

theorem uvarintEncodeAux_ne_nil (fuel v : Nat) (h0 : 0 < v) (hfuel : 0 < fuel) :
    uvarintEncodeAux fuel v ≠ [] := by
  obtain ⟨f, rfl⟩ := Nat.exists_eq_succ_of_ne_zero (Nat.pos_iff_ne_zero.mp hfuel)
  rw [uvarintEncodeAux]
  by_cases h : v > 127
  · simp [if_pos h]
  · rw [if_neg h, if_pos h0]; simp

theorem uvarintEncode_ne_nil (v : Nat) (h0 : 0 < v) : uvarintEncode v ≠ [] :=
  uvarintEncodeAux_ne_nil 10 v h0 (by norm_num)

theorem uvarintEncodeAux_varintBytes (fuel : Nat) :
    ∀ v : Nat, 0 < v → v < 128 ^ fuel → VarintBytes (uvarintEncodeAux fuel v) := by
  induction fuel with
  | zero => intro v h0 hv; simp at hv; omega
  | succ n ih =>
    intro v h0 hv
    rw [uvarintEncodeAux]
    by_cases h : v > 127
    · rw [if_pos h, VarintBytes]
      have hne : uvarintEncodeAux n (v / 128) ≠ [] := by
        apply uvarintEncodeAux_ne_nil
        · omega
        · rcases Nat.eq_zero_or_pos n with rfl | hn
          · simp at hv; omega
          · exact hn
      rw [if_neg hne]
      refine ⟨by omega, ih (v / 128) (by omega) ?_⟩
      rw [pow_succ] at hv
      exact Nat.div_lt_of_lt_mul (by omega)
    · rw [if_neg h, if_pos h0, VarintBytes]
      simp
      omega

theorem uvarintEncode_varintBytes (v : Nat) (h0 : 0 < v) (hv : v < 2 ^ 63) :
    VarintBytes (uvarintEncode v) := by
  have : (128 : Nat) ^ 10 = 2 ^ 70 := by norm_num
  exact uvarintEncodeAux_varintBytes 10 v h0 (by omega)

theorem varintEncode_length_le (x : Int) (h₁ : -(2 ^ 62) ≤ x) (h₂ : x < 2 ^ 62) :
    (varintEncode x).length ≤ 9 := by
  rw [varintEncode]
  set v : Nat := (if x < 0 then -x - 1 else x).toNat with hvdef
  have hv : v < 2 ^ 62 := by rw [hvdef]; split <;> omega
  by_cases h : v > 0x3F
  · rw [if_pos h]
    simp only [List.length_cons]
    have h56 : v / 64 < 128 ^ 8 := by
      have : (128 : Nat) ^ 8 = 2 ^ 56 := by norm_num
      omega
    have := uvarintEncodeAux_length_le 10 8 (v / 64) h56
    simpa [uvarintEncode] using this
  · rw [if_neg h]; simp

theorem varintEncode_varintBytes (x : Int) (h₁ : -(2 ^ 62) ≤ x) (h₂ : x < 2 ^ 62) :
    VarintBytes (varintEncode x) := by
  rw [varintEncode]
  set v : Nat := (if x < 0 then -x - 1 else x).toNat with hvdef
  have hv : v < 2 ^ 62 := by rw [hvdef]; split <;> omega
  have hle : v % 64 * 2 + (if x < 0 then 1 else 0) < 128 := by
    have := Nat.mod_lt v (y := 64) (by omega)
    split <;> omega
  by_cases h : v > 0x3F
  · rw [if_pos h, VarintBytes]
    have hne : uvarintEncode (v / 64) ≠ [] := uvarintEncode_ne_nil _ (by omega)
    rw [if_neg hne]
    refine ⟨by omega, ?_⟩
    have : (128 : Nat) ^ 10 = 2 ^ 70 := by norm_num
    exact uvarintEncodeAux_varintBytes 10 (v / 64) (by omega) (by omega)
  · rw [if_neg h, VarintBytes]
    rw [if_pos rfl]
    exact hle

theorem readVarintAux_exact (B : List Nat) :
    ∀ (n : Nat) (r : List Nat) (lim rem pos : Nat) (tbl : StrTable) (ds : DeltaState),
      VarintBytes B → B.length ≤ rem → B.length ≤ n →
      readVarintAux ⟨B ++ r, lim, rem, pos, tbl, ds⟩ n =
        (⟨r, lim, rem - B.length, pos, tbl, ds⟩, .ok B) := by
  induction B with
  | nil =>
    intro n r lim rem pos tbl ds hv _ _
    rw [VarintBytes] at hv
    exact absurd hv not_false
  | cons b rest ih =>
    intro n r lim rem pos tbl ds hv hrem hn
    cases n with
    | zero => simp at hn
    | succ n' =>
      rw [readVarintAux, readU8]
      simp only [List.length_cons] at hrem hn
      rw [if_neg (by omega : ¬ (rem = 0))]
      simp only [List.cons_append]
      rw [VarintBytes] at hv
      by_cases hrest : rest = []
      · subst hrest
        rw [if_pos rfl] at hv
        rw [if_pos hv]
        simp
      · rw [if_neg hrest] at hv
        rw [if_neg (by omega : ¬ b < 128)]
        rw [ih n' r lim (rem - 1) pos tbl ds hv.2 (by omega) (by omega)]
        have hlen : rem - 1 - rest.length = rem - (b :: rest).length := by
          simp only [List.length_cons]
          omega
        rw [hlen]

theorem readU64_of_encode (v : Nat) (r : List Nat) (lim rem pos : Nat)
    (tbl : StrTable) (ds : DeltaState)
    (h0 : 0 < v) (hv : v < 2 ^ 63) (hrem : (uvarintEncode v).length ≤ rem) :
    readU64 ⟨uvarintEncode v ++ r, lim, rem, pos, tbl, ds⟩ =
      (⟨r, lim, rem - (uvarintEncode v).length, pos, tbl, ds⟩, .ok v) := by
  rw [readU64, readVarintB,
    readVarintAux_exact (uvarintEncode v) 9 r lim rem pos tbl ds
      (uvarintEncode_varintBytes v h0 hv) hrem (uvarintEncode_length_le v hv)]
  dsimp only
  rw [uvarint_roundtrip v (by omega)]

theorem readI64_of_encode (x : Int) (r : List Nat) (lim rem pos : Nat)
    (tbl : StrTable) (ds : DeltaState)
    (h₁ : -(2 ^ 62) ≤ x) (h₂ : x < 2 ^ 62) (hrem : (varintEncode x).length ≤ rem) :
    readI64 ⟨varintEncode x ++ r, lim, rem, pos, tbl, ds⟩ =
      (⟨r, lim, rem - (varintEncode x).length, pos, tbl, ds⟩, .ok x) := by
  rw [readI64, readVarintB,
    readVarintAux_exact (varintEncode x) 9 r lim rem pos tbl ds
      (varintEncode_varintBytes x h₁ h₂) hrem (varintEncode_length_le x h₁ h₂)]
  dsimp only
  rw [varintDecodeTot, varint_roundtrip x (by omega) (by omega)]
  rfl

theorem readU8_eof (st : DecState) (h : st.rem = 0) :
    readU8 st = (st, .error eofErr) := by
  rw [readU8, if_pos h]

theorem readLimit_of_frame (len : Nat) (r : List Nat) (lim rem pos : Nat)
    (tbl : StrTable) (ds : DeltaState) (h0 : 0 < len) (hlen : len < 2 ^ 63) :
    readLimit ⟨uvarintEncode len ++ r, lim, rem, pos, tbl, ds⟩ =
      (⟨r, len, len, pos + (lim - rem) + (uvarintEncode len).length, tbl, ds⟩, .ok ()) := by
  have hL : (uvarintEncode len).length ≤ 9 := uvarintEncode_length_le len hlen
  rw [readLimit, setLimit]
  dsimp only
  rw [readU64_of_encode len r 9 9 (pos + (lim - rem)) tbl ds h0 hlen (by omega)]
  dsimp only
  rw [setLimit]
  dsimp only
  rw [show 9 - (9 - (uvarintEncode len).length) = (uvarintEncode len).length by omega]

theorem toInt32Cast_eq_self (z : Int) (h₁ : -(2 ^ 31) ≤ z) (h₂ : z < 2 ^ 31) :
    toInt32Cast z = z := by
  rw [toInt32Cast]
  omega

theorem varintEncode_ne_nil (x : Int) : varintEncode x ≠ [] := by
  rw [varintEncode]
  split <;> split <;> simp

theorem uvarintEncodeAux_length_le_fuel (fuel : Nat) :
    ∀ v : Nat, (uvarintEncodeAux fuel v).length ≤ fuel := by
  induction fuel with
  | zero => intro v; simp [uvarintEncodeAux]
  | succ n ih =>
    intro v
    rw [uvarintEncodeAux]
    split
    · simpa using Nat.succ_le_succ (ih (v / 128))
    · split <;> simp

theorem uvarintEncode_length_le_ten (v : Nat) : (uvarintEncode v).length ≤ 10 :=
  uvarintEncodeAux_length_le_fuel 10 v

theorem varintEncode_length_le_eleven (x : Int) : (varintEncode x).length ≤ 11 := by
  rw [varintEncode]
  split <;> split
  · simpa using Nat.succ_le_succ (uvarintEncode_length_le_ten _)
  · simp
  · simpa using Nat.succ_le_succ (uvarintEncode_length_le_ten _)
  · simp

theorem parseNext_bbox_eq (b : Boundary) (r : List Nat) (lim rem pos : Nat) (tbl : StrTable)
    (ds : DeltaState) (osm : Osm)
    (h1 : -(2 ^ 31) ≤ b.min.lat ∧ b.min.lat < 2 ^ 31)
    (h2 : -(2 ^ 31) ≤ b.min.lon ∧ b.min.lon < 2 ^ 31)
    (h3 : -(2 ^ 31) ≤ b.max.lat ∧ b.max.lat < 2 ^ 31)
    (h4 : -(2 ^ 31) ≤ b.max.lon ∧ b.max.lon < 2 ^ 31) :
    parseNext ⟨writeBoundingBox b ++ r, lim, rem, pos, tbl, ds⟩ osm =
      (⟨r,
        (parseNext ⟨writeBoundingBox b ++ r, lim, rem, pos, tbl, ds⟩ osm).1.lim,
        (parseNext ⟨writeBoundingBox b ++ r, lim, rem, pos, tbl, ds⟩ osm).1.rem,
        (parseNext ⟨writeBoundingBox b ++ r, lim, rem, pos, tbl, ds⟩ osm).1.pos,
        tbl, ds⟩,
       .ok (true, { osm with boundary := some ⟨b.min, b.max, true⟩ })) := by
  have hv1 := varintEncode_length_le_eleven b.min.lon
  have hv2 := varintEncode_length_le_eleven b.min.lat
  have hv3 := varintEncode_length_le_eleven b.max.lon
  have hv4 := varintEncode_length_le_eleven b.max.lat
  have hv1p : 1 ≤ (varintEncode b.min.lon).length := by
    cases hh : varintEncode b.min.lon with
    | nil => exact absurd hh (varintEncode_ne_nil _)
    | cons a l => simp
  rw [writeBoundingBox]
  simp only [frameDataset, List.cons_append, List.append_assoc]
  rw [parseNext, readSetType, setLimit]
  dsimp only
  rw [readU8, if_neg (by norm_num : ¬ (1 : Nat) = 0)]
  dsimp only
  rw [if_neg (by decide : ¬ O5M_BOUNDING_BOX = O5M_NODE)]
  rw [if_neg (by decide : ¬ O5M_BOUNDING_BOX = O5M_WAY)]
  rw [if_neg (by decide : ¬ O5M_BOUNDING_BOX = O5M_RELATION)]
  rw [if_pos (rfl : O5M_BOUNDING_BOX = O5M_BOUNDING_BOX)]
  rw [readBoundary]
  rw [readLimit_of_frame _ _ 1 0 (pos + (lim - rem)) tbl ds
    (by simp only [List.length_append]; omega)
    (by simp only [List.length_append]; omega)]
  dsimp only
  rw [readI64_of_encode b.min.lon _ _ _ _ _ _ (by omega) (by omega)
    (by simp only [List.length_append]; omega)]
  dsimp only
  rw [readI64_of_encode b.min.lat _ _ _ _ _ _ (by omega) (by omega)
    (by simp only [List.length_append]; omega)]
  dsimp only
  rw [readI64_of_encode b.max.lon _ _ _ _ _ _ (by omega) (by omega)
    (by simp only [List.length_append]; omega)]
  dsimp only
  rw [readI64_of_encode b.max.lat _ _ _ _ _ _ (by omega) (by omega)
    (by simp only [List.length_append]; omega)]
  dsimp only
  rw [toInt32Cast_eq_self b.min.lat h1.1 h1.2, toInt32Cast_eq_self b.min.lon h2.1 h2.2,
    toInt32Cast_eq_self b.max.lat h3.1 h3.2, toInt32Cast_eq_self b.max.lon h4.1 h4.2]

theorem parseNext_bbox (b : Boundary) (r : List Nat) (lim rem pos : Nat) (tbl : StrTable)
    (ds : DeltaState) (osm : Osm)
    (h1 : -(2 ^ 31) ≤ b.min.lat ∧ b.min.lat < 2 ^ 31)
    (h2 : -(2 ^ 31) ≤ b.min.lon ∧ b.min.lon < 2 ^ 31)
    (h3 : -(2 ^ 31) ≤ b.max.lat ∧ b.max.lat < 2 ^ 31)
    (h4 : -(2 ^ 31) ≤ b.max.lon ∧ b.max.lon < 2 ^ 31) :
    ∃ lim2 rem2 pos2,
    parseNext ⟨writeBoundingBox b ++ r, lim, rem, pos, tbl, ds⟩ osm =
      (⟨r, lim2, rem2, pos2, tbl, ds⟩,
       .ok (true, { osm with boundary := some ⟨b.min, b.max, true⟩ })) :=
  ⟨_, _, _, parseNext_bbox_eq b r lim rem pos tbl ds osm h1 h2 h3 h4⟩

theorem foldl_expand_freeze (ns : List Node) (b : Boundary) :
    (ns.foldl (fun bb n => bb.expand n.coordinate) b).freeze = b.freeze := by
  induction ns generalizing b with
  | nil => rfl
  | cons n rest ih => rw [List.foldl_cons, ih, Boundary.expand_freeze]

end VadeenOsm
